import Mathlib

/-!
# Verification of the polars-parquet binary/string page decoder

Shallow embedding of `crates/polars-parquet/src/arrow/read/deserialize/binary/basic.rs`:
the `StateTranslation` implementation for `BinaryDecoder` (`extend_from_state` and friends),
the `finish` step, and the decoder/iterator state around them.

Conventions of the embedding:
* machine bytes are `Nat` (each conceptually `< 256`), byte buffers are `List Nat`;
* the offset buffer `Offsets<O>` is a `List Nat` that always starts with `0`
  (offset-width overflow is out of scope for the proved claims, so `Nat` replaces
  both the 32-bit and the 64-bit offset types);
* the validity bitmap `MutableBitmap` is a `List Bool`;
* the null-run descriptor `PageValidity` is the per-row sequence of validity flags
  it decodes to, consumed in order;
* Rust `&mut` state is explicit state passing: `extend_from_state` returns the new
  cursor, the new decoder flag, the new accumulator pair, the new null-run stream
  and an `Option ParquetError` (`none` = `Ok(())`); early `?` returns still hand back
  the state as mutated so far, exactly as the Rust borrow does;
* helpers of this repository that are not part of the excerpt
  (`try_check_utf8`, `extend_from_decoder`, `Binary::extend_lengths`,
  `BinaryStateTranslation::new`, `len_when_not_nullable`) are modelled from the
  spec, each marked `Modelled from the spec:` in its doc comment.
-/

namespace PolarsBinary

/-- Errors of the parquet layer. The excerpt constructs `ParquetError::oos("invalid utf-8")`
for a failed deferred UTF-8 check; buffered stream errors carry whatever message the
underlying fallible iterator recorded. -/
inductive ParquetError where
  | oos (msg : String)
deriving DecidableEq, Repr

/-- Is `b` a UTF-8 continuation byte (`0x80..=0xBF`)? -/
def isCont (b : Nat) : Bool :=
  0x80 ≤ b && b ≤ 0xBF

/-- Modelled from the spec: UTF-8 validity of a byte sequence (RFC 3629 table:
correct continuation counts, no overlongs, no surrogates, max `U+10FFFF`).
This is the predicate behind "validate as UTF-8". -/
def utf8Valid : List Nat → Bool
  | [] => true
  | b :: rest =>
    if b ≤ 0x7F then utf8Valid rest
    else if 0xC2 ≤ b && b ≤ 0xDF then
      match rest with
      | c1 :: rest2 => isCont c1 && utf8Valid rest2
      | [] => false
    else if b = 0xE0 then
      match rest with
      | c1 :: c2 :: rest2 => (0xA0 ≤ c1 && c1 ≤ 0xBF) && isCont c2 && utf8Valid rest2
      | _ => false
    else if (0xE1 ≤ b && b ≤ 0xEC) || b = 0xEE || b = 0xEF then
      match rest with
      | c1 :: c2 :: rest2 => isCont c1 && isCont c2 && utf8Valid rest2
      | _ => false
    else if b = 0xED then
      match rest with
      | c1 :: c2 :: rest2 => (0x80 ≤ c1 && c1 ≤ 0x9F) && isCont c2 && utf8Valid rest2
      | _ => false
    else if b = 0xF0 then
      match rest with
      | c1 :: c2 :: c3 :: rest2 =>
          (0x90 ≤ c1 && c1 ≤ 0xBF) && isCont c2 && isCont c3 && utf8Valid rest2
      | _ => false
    else if 0xF1 ≤ b && b ≤ 0xF3 then
      match rest with
      | c1 :: c2 :: c3 :: rest2 => isCont c1 && isCont c2 && isCont c3 && utf8Valid rest2
      | _ => false
    else if b = 0xF4 then
      match rest with
      | c1 :: c2 :: c3 :: rest2 =>
          (0x80 ≤ c1 && c1 ≤ 0x8F) && isCont c2 && isCont c3 && utf8Valid rest2
      | _ => false
    else false

/-- Modelled from the spec: `try_check_utf8(offsets, values)` (polars-arrow
`array::specification`, not in the excerpt). Given a slice of the offset buffer and the
value bytes, it checks UTF-8 validity of the byte range of `values` *spanned by the given
offsets*, i.e. from the first given offset to the last given offset; with fewer than two
offsets there is no spanned range and it succeeds. -/
def try_check_utf8 (offsets : List Nat) (values : List Nat) : Bool :=
  match offsets.head?, offsets.getLast? with
  | some first, some last => utf8Valid ((values.drop first).take (last - first))
  | _, _ => true

/-- The `Binary<O>` accumulator of `binary/utils.rs`: a growable byte buffer plus a
growable offset buffer. The offset buffer always holds one more entry than there are
rows, starting with `0`. -/
structure Binary where
  offsets : List Nat
  values : List Nat
deriving DecidableEq, Repr

/-- `Offsets::last()`: the trailing offset (the offset buffer is never empty in the
source; an empty list defaults to `0`). -/
def lastOffset (offsets : List Nat) : Nat :=
  offsets.getLast?.getD 0

/-- `Binary::push`: append one value: its bytes go to the byte buffer and the new
trailing offset is recorded. -/
def Binary.push (b : Binary) (x : List Nat) : Binary :=
  { offsets := b.offsets ++ [lastOffset b.offsets + x.length],
    values := b.values ++ x }

/-- `Pushable::push_null` on `Binary`: a zero-length span by offset repetition. -/
def Binary.pushNull (b : Binary) : Binary :=
  { b with offsets := b.offsets ++ [lastOffset b.offsets] }

/-- Number of rows stored in the accumulator (`offsets.len() - 1`). -/
def Binary.numRows (b : Binary) : Nat :=
  b.offsets.length - 1

/-- The `Pushable` target interface of the generic `extend_from_decoder`: push one
pulled item, or push one null slot. `dflt` is the item used when the value stream is
exhausted (`T: Default` in the source signature). -/
structure PushableOps (σ : Type) (α : Type) where
  push : σ → α → σ
  pushNull : σ → σ
  dflt : α

/-- `Binary` as a `Pushable` over byte values. -/
def binaryPushable : PushableOps Binary (List Nat) :=
  { push := Binary.push, pushNull := Binary.pushNull, dflt := [] }

/-- The offset buffer as a `Pushable` over row lengths: pushing a length appends
`last + len`, a null repeats the trailing offset. -/
def offsetsPushable : PushableOps (List Nat) Nat :=
  { push := fun os l => os ++ [lastOffset os + l],
    pushNull := fun os => os ++ [lastOffset os],
    dflt := 0 }

/-- `Binary` as a `Pushable` fed by a dictionary index stream: each pulled index
resolves to the dictionary's stored byte value (out-of-range resolves to the empty
value in the model). -/
def dictPushable (dict : List (List Nat)) : PushableOps Binary Nat :=
  { push := fun b i => b.push ((dict.get? i).getD []),
    pushNull := Binary.pushNull, dflt := 0 }

/-- Modelled from the spec: the core loop of the generic `extend_from_decoder`
(`utils.rs`, not in the excerpt). For each validity slot, in lockstep: a valid slot
pulls one item from the stream and pushes it, a null slot pushes a null and pulls
nothing. Returns the final target and the unconsumed remainder of the item stream. -/
def extendLockstep (ops : PushableOps σ α) :
    List Bool → σ → List α → σ × List α
  | [], tgt, items => (tgt, items)
  | true :: rest, tgt, items =>
    match items with
    | [] => extendLockstep ops rest (ops.push tgt ops.dflt) []
    | x :: xs => extendLockstep ops rest (ops.push tgt x) xs
  | false :: rest, tgt, items => extendLockstep ops rest (ops.pushNull tgt) items

/-- Modelled from the spec: `extend_from_decoder(validity, page_validity, Some(additional),
target, items)` — reads the valid/null status of the next `additional` slots from the
null-run descriptor, appends those bits to the validity accumulator, and extends the
target in lockstep (values pulled only for valid slots). Returns the new validity
accumulator, the advanced null-run stream, the new target and the advanced item stream. -/
def extend_from_decoder (ops : PushableOps σ α) (validity : List Bool)
    (pageValidity : List Bool) (additional : Nat) (tgt : σ) (items : List α) :
    List Bool × List Bool × σ × List α :=
  let slots := pageValidity.take additional
  let (tgt', items') := extendLockstep ops slots tgt items
  (validity ++ slots, pageValidity.drop additional, tgt', items')

/-- The dictionary variant's sub-cursor (`ValuesDictionary`): the remaining index
stream, the page dictionary it resolves against, and the index stream's buffered
(post-hoc) error, surfaced only by `get_result()` (`FallibleIterator`). -/
structure DictState where
  indices : List Nat
  dict : List (List Nat)
  err : Option ParquetError
deriving DecidableEq, Repr

/-- The delta-length variant's sub-cursor: the delta-decoded length stream (with its
buffered post-hoc error, modelled from the spec: "their pull operations are allowed to
buffer errors rather than fail immediately") and the shared raw byte slab, of which the
cursor owns the unconsumed suffix. -/
structure DeltaState where
  lengths : List Nat
  err : Option ParquetError
  values : List Nat
deriving DecidableEq, Repr

/-- `BinaryStateTranslation`: the per-encoding decode cursor. `Plain` holds the
remaining raw values; `Dictionary` holds the index sub-cursor (plus the `bool` payload
the excerpt never reads, bound `_` in its match); `Delta` is delta-length-byte-array;
`DeltaBytes` holds the remaining reconstructed values of the delta-byte-array decoder
(prefix/suffix reconstruction is internal to the decoder and modelled from the spec as
the value sequence it yields). -/
inductive BinaryStateTranslation where
  | Plain (values : List (List Nat))
  | Dictionary (st : DictState) (b : Bool)
  | Delta (st : DeltaState)
  | DeltaBytes (values : List (List Nat))
deriving DecidableEq, Repr

/-- Modelled from the spec: `len_when_not_nullable` reports how many rows remain
decodable assuming no nulls. -/
def len_when_not_nullable : BinaryStateTranslation → Nat
  | .Plain vs => vs.length
  | .Dictionary ds _ => ds.indices.length
  | .Delta ds => ds.lengths.length
  | .DeltaBytes vs => vs.length

/-- `BinaryDecoder`: the per-column decoder configuration. Its only state is the
`check_utf8` flag (`Cell<bool>` in the source; modelled by explicit threading). -/
structure BinaryDecoder where
  check_utf8 : Bool
deriving DecidableEq, Repr

/-- `BinaryDecoder::default()`: the decoder the iterator constructs afresh at the
start of every `next()` call; `Cell::<bool>::default()` is `false`. -/
def binaryDecoderDefault : BinaryDecoder := ⟨false⟩

/-- Modelled from the spec: `Binary::extend_lengths(lengths, values)` — appends the
pulled lengths to the offset buffer, derives the total byte length consumed as the
difference between the new and the old trailing offset, slices exactly that many bytes
off the front of the shared slab into the byte buffer, and returns the advanced slab. -/
def Binary.extend_lengths (b : Binary) (lengths : List Nat) (slab : List Nat) :
    Binary × List Nat :=
  let offsets' := lengths.foldl (fun os l => os ++ [lastOffset os + l]) b.offsets
  let length := lastOffset offsets' - lastOffset b.offsets
  ({ offsets := offsets', values := b.values ++ slab.take length }, slab.drop length)

/-- The full result of one `extend_from_state` call: the mutated cursor, the decoder
with its flag consumed, the mutated accumulator pair, the advanced null-run stream,
and the call's `Result` (`none` = `Ok(())`). -/
structure ExtendOutput where
  trans : BinaryStateTranslation
  decoder : BinaryDecoder
  decoded : Binary × List Bool
  pageValidity : Option (List Bool)
  result : Option ParquetError
deriving DecidableEq, Repr

/-- The `match (self, page_validity)` phase of `extend_from_state` (everything before
the deferred UTF-8 check): per variant, the pushes into the accumulator, cursor
advance, and — for the dictionary arms — the `get_result()?` early error.
Returns the mutated cursor / accumulator / null-run stream, the possibly-cleared
local `validate_utf8`, and the early error, if any. -/
def extendMatch (trans : BinaryStateTranslation)
    (values : Binary) (validity : List Bool)
    (pageValidity : Option (List Bool)) (additional : Nat) (validateUtf8 : Bool) :
    BinaryStateTranslation × Binary × List Bool × Option (List Bool) × Bool ×
      Option ParquetError :=
  match trans, pageValidity with
  | .Plain pageValues, none =>
    let values' := (pageValues.take additional).foldl Binary.push values
    (.Plain (pageValues.drop additional), values', validity, none, validateUtf8, none)
  | .Plain pageValues, some pv =>
    let (validity', pv', values', rest) :=
      extend_from_decoder binaryPushable validity pv additional values pageValues
    (.Plain rest, values', validity', some pv', validateUtf8, none)
  | .Dictionary ds b, none =>
    -- Already done on the dict.
    let values' :=
      ((ds.indices.take additional).map (fun i => (ds.dict.get? i).getD [])).foldl
        Binary.push values
    (.Dictionary { ds with indices := ds.indices.drop additional } b, values',
      validity, none, false, ds.err)
  | .Dictionary ds b, some pv =>
    -- Already done on the dict.
    let (validity', pv', values', rest) :=
      extend_from_decoder (dictPushable ds.dict) validity pv additional values ds.indices
    (.Dictionary { ds with indices := rest } b, values', validity', some pv', false,
      ds.err)
  | .Delta ds, none =>
    let (values', slab') :=
      values.extend_lengths (ds.lengths.take additional) ds.values
    (.Delta { ds with lengths := ds.lengths.drop additional, values := slab' },
      values', validity, none, validateUtf8, none)
  | .Delta ds, some pv =>
    let last_offset := lastOffset values.offsets
    let (validity', pv', offsets', rest) :=
      extend_from_decoder offsetsPushable validity pv additional values.offsets
        ds.lengths
    let length := lastOffset offsets' - last_offset
    let consumed := ds.values.take length
    let remaining := ds.values.drop length
    (.Delta { ds with lengths := rest, values := remaining },
      { offsets := offsets', values := values.values ++ consumed }, validity',
      some pv', validateUtf8, none)
  | .DeltaBytes pageValues, none =>
    let values' := (pageValues.take additional).foldl Binary.push values
    (.DeltaBytes (pageValues.drop additional), values', validity, none, validateUtf8,
      none)
  | .DeltaBytes pageValues, some pv =>
    let (validity', pv', values', rest) :=
      extend_from_decoder binaryPushable validity pv additional values pageValues
    (.DeltaBytes rest, values', validity', some pv', validateUtf8, none)

/-- `StateTranslation::extend_from_state` for `BinaryDecoder` (`basic.rs` lines
52–154): takes the `check_utf8` flag from the decoder's cell (resetting it), records
the offset-buffer length, runs the per-variant match, then — unless an early
`get_result()?` error fired — re-checks UTF-8 over the offsets appended by this call
when the flag was still set, mapping a violation to `ParquetError::oos("invalid utf-8")`. -/
def extend_from_state (trans : BinaryStateTranslation) (decoder : BinaryDecoder)
    (decoded : Binary × List Bool) (pageValidity : Option (List Bool))
    (additional : Nat) : ExtendOutput :=
  let (values, validity) := decoded
  let validate_utf8 := decoder.check_utf8
  let len_before := values.offsets.length
  let (trans', values', validity', pv', validate', early) :=
    extendMatch trans values validity pageValidity additional validate_utf8
  let result :=
    match early with
    | some e => some e
    | none =>
      if validate' then
        -- @TODO: This can report a better error.
        let offsets := values'.offsets.drop len_before
        if try_check_utf8 offsets values'.values then none
        else some (.oos "invalid utf-8")
      else none
  { trans := trans', decoder := ⟨false⟩, decoded := (values', validity'),
    pageValidity := pv', result := result }

/-- The buffered (post-hoc) stream error carried by a cursor: the dictionary
variant's index-stream error (what its `get_result()` reports); `none` for the other
variants (whose arms never call `get_result`). -/
def dictErr : BinaryStateTranslation → Option ParquetError
  | .Dictionary ds _ => ds.err
  | _ => none

/-- The parquet primitive logical type of a page's column descriptor (only the
discrimination the excerpt performs — `String` versus anything else — matters; a few
other members of the enum stand in for "not String"). -/
inductive PrimitiveLogicalType where
  | string
  | enumeration
  | integer
  | date
deriving DecidableEq, Repr

/-- Modelled from the spec: the decodable payload of one data page, by encoding kind —
a raw value stream (plain), an index stream (dictionary), a length stream plus shared
byte slab (delta-length), or the reconstructed value stream (delta-byte-array). Raw
parquet byte-level framing is out of scope. -/
inductive PageContent where
  | plain (values : List (List Nat))
  | dictionaryIndices (indices : List Nat) (err : Option ParquetError)
  | deltaLength (lengths : List Nat) (err : Option ParquetError) (slab : List Nat)
  | deltaBytes (values : List (List Nat))
deriving DecidableEq, Repr

/-- A data page: its declared primitive logical type
(`page.descriptor.primitive_type.logical_type`) and its decodable content. -/
structure DataPage where
  logicalType : Option PrimitiveLogicalType
  content : PageContent
deriving DecidableEq, Repr

/-- The `is_string` test of `StateTranslation::new`:
`matches!(page.descriptor.primitive_type.logical_type, Some(PrimitiveLogicalType::String))`. -/
def isStringPage (page : DataPage) : Bool :=
  page.logicalType = some .string

/-- Modelled from the spec: `BinaryStateTranslation::new(page, dict, ...)`
(`decoders.rs`, not in the excerpt) — dispatches on the page's encoding kind to build
the matching cursor variant; a dictionary-encoded page resolves against the active
page dictionary (an empty one when absent). -/
def binaryStateTranslationNew (page : DataPage) (dict : Option (List (List Nat)))
    (isString : Bool) : BinaryStateTranslation :=
  match page.content with
  | .plain vs => .Plain vs
  | .dictionaryIndices ix err => .Dictionary ⟨ix, dict.getD [], err⟩ isString
  | .deltaLength ls err slab => .Delta ⟨ls, err, slab⟩
  | .deltaBytes vs => .DeltaBytes vs

/-- `StateTranslation::new` for `BinaryDecoder` (`basic.rs` lines 29–42): computes
`is_string` from the page's declared logical type, stores it into the decoder's
`check_utf8` cell, and builds the cursor. Returns the updated decoder and the cursor. -/
def stateTranslationNew (decoder : BinaryDecoder) (page : DataPage)
    (dict : Option (List (List Nat))) : BinaryDecoder × BinaryStateTranslation :=
  let is_string := isStringPage page
  let _ := decoder
  (⟨is_string⟩, binaryStateTranslationNew page dict is_string)

/-- The arrow physical types `finish` can meet. The four binary/string ones are the
handled arms of its match; the others stand in for its `_ => unreachable!()` arm. -/
inductive PhysicalType where
  | binary
  | largeBinary
  | utf8
  | largeUtf8
  | boolean
  | primitive
  | list
  | struct
deriving DecidableEq, Repr

/-- An arrow data type, reduced to what `finish` inspects: its physical type
(`data_type.to_physical_type()`; the full logical data-type tree is out of scope). -/
structure ArrowDataType where
  physical : PhysicalType
deriving DecidableEq, Repr

/-- The boxed array `finish` produces: a `BinaryArray` or a `Utf8Array` built
*unchecked* from the accumulated offsets, bytes and validity. -/
inductive ArrayBox where
  | binaryArray (dt : ArrowDataType) (offsets : List Nat) (values : List Nat)
      (validity : List Bool)
  | utf8Array (dt : ArrowDataType) (offsets : List Nat) (values : List Nat)
      (validity : List Bool)
deriving DecidableEq, Repr

/-- The error type of `PolarsResult` (only its existence matters to `finish`,
which never constructs one). -/
inductive PolarsError where
  | computeError (msg : String)
deriving DecidableEq, Repr

/-- `finish` (`basic.rs` lines 180–210): shrinks the buffers to fit (no observable
content change) and builds the array by physical type with `new_unchecked` — no
re-validation of offsets or UTF-8. The `_ => unreachable!()` arm is modelled as
`none` (a panic); the defined arms return `some (Except.ok ...)`. -/
def finish (dataType : ArrowDataType) (values : Binary) (validity : List Bool) :
    Option (Except PolarsError ArrayBox) :=
  match dataType.physical with
  | .binary =>
    some (.ok (.binaryArray dataType values.offsets values.values validity))
  | .largeBinary =>
    some (.ok (.binaryArray dataType values.offsets values.values validity))
  | .utf8 =>
    some (.ok (.utf8Array dataType values.offsets values.values validity))
  | .largeUtf8 =>
    some (.ok (.utf8Array dataType values.offsets values.values validity))
  | _ => none


theorem lastOffset_append_singleton (os : List Nat) (x : Nat) :
    lastOffset (os ++ [x]) = x := by
  simp [lastOffset]

theorem extendLockstep_append (ops : PushableOps σ α) (a b : List Bool) (tgt : σ)
    (items : List α) :
    extendLockstep ops (a ++ b) tgt items =
      extendLockstep ops b (extendLockstep ops a tgt items).1
        (extendLockstep ops a tgt items).2 := by
  induction a generalizing tgt items with
  | nil => simp [extendLockstep]
  | cons h t ih =>
    cases h with
    | false => simp [extendLockstep, ih]
    | true => cases items <;> simp [extendLockstep, ih]

theorem lastOffset_foldl_lengths (ls : List Nat) (os : List Nat) :
    lastOffset (ls.foldl (fun os l => os ++ [lastOffset os + l]) os) =
      lastOffset os + ls.sum := by
  induction ls generalizing os with
  | nil => simp
  | cons l t ih =>
    simp only [List.foldl_cons, ih, lastOffset_append_singleton, List.sum_cons]
    omega

theorem lastOffset_le_lockstep_ofs (slots : List Bool) (os : List Nat)
    (ls : List Nat) :
    lastOffset os ≤ lastOffset (extendLockstep offsetsPushable slots os ls).1 := by
  induction slots generalizing os ls with
  | nil => simp [extendLockstep]
  | cons b t ih =>
    cases b with
    | false =>
      refine le_trans ?_ (ih (os ++ [lastOffset os]) ls)
      simp [extendLockstep, offsetsPushable, lastOffset_append_singleton]
    | true =>
      cases ls with
      | nil =>
        refine le_trans ?_ (ih (os ++ [lastOffset os + 0]) [])
        simp [lastOffset_append_singleton]
      | cons x xs =>
        refine le_trans ?_ (ih (os ++ [lastOffset os + x]) xs)
        simp [lastOffset_append_singleton]

theorem extend_from_decoder_eq (ops : PushableOps σ α) (validity : List Bool)
    (pv : List Bool) (additional : Nat) (tgt : σ) (items : List α) :
    extend_from_decoder ops validity pv additional tgt items =
      (validity ++ pv.take additional, pv.drop additional,
        (extendLockstep ops (pv.take additional) tgt items).1,
        (extendLockstep ops (pv.take additional) tgt items).2) := rfl

/-- C1: For every decode-cursor state, accumulator pair, and null-run descriptor,
splitting one page's rows across two successive `extend_from_state` calls (extend `k`
then extend `m`) produces an accumulator (offsets, value bytes, and validity mask) —
and, in fact, a cursor, decoder and null-run stream — byte-for-byte identical to a
single `extend_from_state` call of `k + m` rows on the same initial state. -/
theorem extend_from_state_split (trans : BinaryStateTranslation)
    (decoder : BinaryDecoder) (decoded : Binary × List Bool)
    (pv : Option (List Bool)) (k m : Nat) :
    (let o₁ := extend_from_state trans decoder decoded pv k
     let o₂ := extend_from_state o₁.trans o₁.decoder o₁.decoded o₁.pageValidity m
     let o := extend_from_state trans decoder decoded pv (k + m)
     o₂.trans = o.trans ∧ o₂.decoder = o.decoder ∧ o₂.decoded = o.decoded ∧
       o₂.pageValidity = o.pageValidity) := by
  obtain ⟨values, validity⟩ := decoded
  cases trans with
  | Plain vs =>
    cases pv with
    | none =>
      simp [extend_from_state, extendMatch, List.take_add, List.foldl_append,
        List.drop_drop, Nat.add_comm]
    | some pvv =>
      simp [extend_from_state, extendMatch, extend_from_decoder, List.take_add,
        extendLockstep_append, List.drop_drop, Nat.add_comm, List.append_assoc]
  | Dictionary ds b =>
    cases pv with
    | none =>
      simp [extend_from_state, extendMatch, List.take_add, List.foldl_append,
        List.drop_drop, Nat.add_comm, List.map_append]
    | some pvv =>
      simp [extend_from_state, extendMatch, extend_from_decoder, List.take_add,
        extendLockstep_append, List.drop_drop, Nat.add_comm, List.append_assoc]
  | DeltaBytes vs =>
    cases pv with
    | none =>
      simp [extend_from_state, extendMatch, List.take_add, List.foldl_append,
        List.drop_drop, Nat.add_comm]
    | some pvv =>
      simp [extend_from_state, extendMatch, extend_from_decoder, List.take_add,
        extendLockstep_append, List.drop_drop, Nat.add_comm, List.append_assoc]
  | Delta ds =>
    cases pv with
    | none =>
      simp only [extend_from_state, extendMatch, Binary.extend_lengths]
      have hA := lastOffset_foldl_lengths (ds.lengths.take k) values.offsets
      have hB := lastOffset_foldl_lengths ((ds.lengths.drop k).take m)
        ((ds.lengths.take k).foldl (fun os l => os ++ [lastOffset os + l])
          values.offsets)
      have hAB := lastOffset_foldl_lengths (ds.lengths.take (k + m)) values.offsets
      rw [List.take_add, List.foldl_append] at hAB
      rw [List.take_add ds.lengths k m, List.foldl_append]
      refine ⟨?_, trivial, ?_, trivial⟩
      · simp only [hA, hB, List.drop_drop]
        generalize lastOffset values.offsets = l0
        generalize (List.take k ds.lengths).sum = sA
        generalize (List.take m (List.drop k ds.lengths)).sum = sB
        have e : l0 + sA - l0 + (l0 + sA + sB - (l0 + sA)) = l0 + sA + sB - l0 := by
          omega
        rw [e]
      · simp only [hA, hB]
        generalize hg : lastOffset values.offsets = l0
        rw [hg] at hA
        generalize (List.take k ds.lengths).sum = sA at *
        generalize (List.take m (List.drop k ds.lengths)).sum = sB at *
        have e1 : l0 + sA - l0 = sA := by omega
        have e2 : l0 + sA + sB - (l0 + sA) = sB := by omega
        have e3 : l0 + sA + sB - l0 = sA + sB := by omega
        rw [e1, e2, e3, List.take_add, List.append_assoc]
    | some pvv =>
      simp only [extend_from_state, extendMatch, extend_from_decoder_eq]
      rw [List.take_add pvv k m, extendLockstep_append]
      have hle1 := lastOffset_le_lockstep_ofs (pvv.take k) values.offsets ds.lengths
      generalize extendLockstep offsetsPushable (List.take k pvv) values.offsets
        ds.lengths = P at *
      have hle2 := lastOffset_le_lockstep_ofs ((pvv.drop k).take m) P.1 P.2
      generalize extendLockstep offsetsPushable (List.take m (List.drop k pvv)) P.1
        P.2 = Q at *
      generalize hg : lastOffset values.offsets = l0 at *
      refine ⟨?_, trivial, ?_, ?_⟩
      · simp only [List.drop_drop]
        have e : lastOffset P.1 - l0 + (lastOffset Q.1 - lastOffset P.1) =
            lastOffset Q.1 - l0 := by omega
        rw [e]
      · have e1 : lastOffset P.1 - l0 + (lastOffset Q.1 - lastOffset P.1) =
            lastOffset Q.1 - l0 := by omega
        rw [List.append_assoc, ← List.take_add, e1, List.append_assoc,
          ← List.take_add]
      · rw [List.drop_drop, Nat.add_comm]

/-- C3: For the delta-length variant with a null-run descriptor, `extend_from_state`
first extends the offsets in lockstep with the null-run descriptor, then computes the
consumed byte count as the difference between the new and old trailing offset, slices
exactly that many bytes off the front of the shared byte slab, appends them to the
value buffer, and reassigns the slab to the unconsumed remainder (the slab advances
destructively — the original slab is the consumed prefix followed by the cursor's new
suffix — and is never re-scanned). -/
theorem extend_delta_nullable_slab (ds : DeltaState) (decoder : BinaryDecoder)
    (values : Binary) (validity : List Bool) (pvv : List Bool) (additional : Nat) :
    (let o := extend_from_state (.Delta ds) decoder (values, validity) (some pvv)
      additional
     let stepped := extend_from_decoder offsetsPushable validity pvv additional
       values.offsets ds.lengths
     let consumedLen := lastOffset stepped.2.2.1 - lastOffset values.offsets
     o.decoded.1.offsets = stepped.2.2.1 ∧
     o.decoded.1.values = values.values ++ ds.values.take consumedLen ∧
     o.decoded.2 = stepped.1 ∧
     ∃ ds2, o.trans = .Delta ds2 ∧ ds2.values = ds.values.drop consumedLen ∧
       ds.values = ds.values.take consumedLen ++ ds2.values ∧
       ds2.lengths = stepped.2.2.2 ∧ ds2.err = ds.err) := by
  simp only [extend_from_state, extendMatch, extend_from_decoder_eq]
  refine ⟨trivial, trivial, trivial, ?_⟩
  exact ⟨_, rfl, rfl, (List.take_append_drop _ _).symm, rfl, rfl⟩

/-- Pushing `n` values appends exactly `n` offsets. -/
theorem offsets_length_foldl_push (l : List (List Nat)) (b : Binary) :
    ((l.foldl Binary.push b)).offsets.length = b.offsets.length + l.length := by
  induction l generalizing b with
  | nil => simp
  | cons x xs ih => simp [List.foldl_cons, ih, Binary.push]; omega

/-- Pushing `n` lengths appends exactly `n` offsets. -/
theorem offsets_length_foldl_lengths (ls : List Nat) (os : List Nat) :
    (ls.foldl (fun os l => os ++ [lastOffset os + l]) os).length =
      os.length + ls.length := by
  induction ls generalizing os with
  | nil => simp
  | cons l t ih => simp [List.foldl_cons, ih]; omega

/-- C6: For every `extend_from_state` call with no null-run descriptor and a cursor
holding at least `additional` remaining values, exactly `additional` valid rows are
appended to the byte/offset accumulator (the offset buffer grows by exactly
`additional` entries) and the validity accumulator is left completely untouched (no
bits appended; the absent null-run stream stays absent). -/
theorem extend_no_validity_frame (trans : BinaryStateTranslation)
    (decoder : BinaryDecoder) (values : Binary) (validity : List Bool)
    (additional : Nat) (h : additional ≤ len_when_not_nullable trans) :
    (let o := extend_from_state trans decoder (values, validity) none additional
     o.decoded.2 = validity ∧
     o.decoded.1.offsets.length = values.offsets.length + additional ∧
     o.pageValidity = none) := by
  cases trans with
  | Plain vs =>
    refine ⟨rfl, ?_, rfl⟩
    simp only [extend_from_state, extendMatch, offsets_length_foldl_push]
    simp [len_when_not_nullable] at h
    simp [List.length_take, Nat.min_eq_left h]
  | Dictionary ds b =>
    refine ⟨rfl, ?_, rfl⟩
    simp only [extend_from_state, extendMatch, offsets_length_foldl_push]
    simp [len_when_not_nullable] at h
    simp [List.length_take, Nat.min_eq_left h]
  | Delta ds =>
    refine ⟨rfl, ?_, rfl⟩
    simp only [extend_from_state, extendMatch, Binary.extend_lengths,
      offsets_length_foldl_lengths]
    simp [len_when_not_nullable] at h
    simp [List.length_take, Nat.min_eq_left h]
  | DeltaBytes vs =>
    refine ⟨rfl, ?_, rfl⟩
    simp only [extend_from_state, extendMatch, offsets_length_foldl_push]
    simp [len_when_not_nullable] at h
    simp [List.length_take, Nat.min_eq_left h]

/-- C2 counterexample: the claim says the delta-byte-array variant performs no UTF-8
re-validation on extend; but a `DeltaBytes` extend with the validate flag set returns
the UTF-8 decode error (so re-validation *was* performed), refuting the claim at this
input. -/
theorem extend_deltabytes_validates_cex :
    (extend_from_state (.DeltaBytes [[0x41], [0xFF]]) ⟨true⟩ (⟨[0], []⟩, []) none
      2).result = some (.oos "invalid utf-8") := by decide

/-- C2 amended: after an `extend_from_state` call with the validate-as-UTF-8 flag set,
UTF-8 is re-checked exactly when the values did not come from the dictionary path: the
dictionary arms force the local flag off (the call's result is independent of the
decoder flag), while the plain, delta-length AND delta-byte-array variants all gate
their result on the UTF-8 check of the newly appended offsets' span. -/
theorem extend_utf8_validation_gate :
    (∀ ds b f values validity pv additional,
      (extend_from_state (.Dictionary ds b) ⟨f⟩ (values, validity) pv
          additional).result =
        (extend_from_state (.Dictionary ds b) ⟨false⟩ (values, validity) pv
          additional).result) ∧
    (∀ trans values validity pv additional,
      (∀ ds b, trans ≠ .Dictionary ds b) →
      (extend_from_state trans ⟨true⟩ ((values : Binary), (validity : List Bool)) pv
          additional).result =
        (if try_check_utf8
            ((extend_from_state trans ⟨true⟩ (values, validity) pv
              additional).decoded.1.offsets.drop values.offsets.length)
            ((extend_from_state trans ⟨true⟩ (values, validity) pv
              additional).decoded.1.values) then none
         else some (.oos "invalid utf-8"))) := by
  constructor
  · intro ds b f values validity pv additional
    cases pv <;> simp [extend_from_state, extendMatch]
  · intro trans values validity pv additional hnd
    cases trans with
    | Plain vs => cases pv <;> simp [extend_from_state, extendMatch]
    | Dictionary ds b => exact absurd rfl (hnd ds b)
    | Delta ds => cases pv <;> simp [extend_from_state, extendMatch]
    | DeltaBytes vs => cases pv <;> simp [extend_from_state, extendMatch]

/-- C7 counterexample: the claim says the delta-length variant checks its length
stream's buffered (post-hoc) error flag on every `extend_from_state` call; but an
extend over a delta-length cursor whose stream has a buffered error returns `Ok`
(the flag is never consulted), refuting the claim at this input. -/
theorem delta_err_flag_ignored_cex :
    (extend_from_state (.Delta ⟨[1], some (.oos "overrun"), [0x41]⟩) ⟨false⟩
      (⟨[0], []⟩, []) none 1).result = none := by decide

/-- C7 amended: only the dictionary variant checks the underlying index stream's
buffered (post-hoc) error flag after pulling values — `extend_from_state` always
surfaces a buffered dictionary-stream error as the call's decode error, in both the
nullable and non-nullable arms — while the delta-length variant never consults its
length stream's buffered error flag (the call's result is independent of it). -/
theorem stream_err_flag_surfacing :
    (∀ ix dict e b decoder values validity pv additional,
      (extend_from_state (.Dictionary ⟨ix, dict, some e⟩ b) decoder
        ((values : Binary), (validity : List Bool)) pv additional).result = some e) ∧
    (∀ ls e1 e2 slab decoder values validity pv additional,
      (extend_from_state (.Delta ⟨ls, e1, slab⟩) decoder
          ((values : Binary), (validity : List Bool)) pv additional).result =
        (extend_from_state (.Delta ⟨ls, e2, slab⟩) decoder (values, validity) pv
          additional).result) := by
  constructor
  · intro ix dict e b decoder values validity pv additional
    cases pv <;> simp [extend_from_state, extendMatch]
  · intro ls e1 e2 slab decoder values validity pv additional
    cases pv <;> simp [extend_from_state, extendMatch]

/-- C8: The decoder's only mutable state, the validate-as-UTF-8 flag: it is set when
the decode cursor is constructed from a page's logical type (`StateTranslation::new`),
it is consumed (reset to `false`) by the next `extend_from_state` call regardless of
variant, and each `BinaryArrayIter::next` call constructs a fresh
`BinaryDecoder::default()` whose flag is cleared, so the flag cannot leak between
output arrays. -/
theorem utf8_flag_lifecycle :
    (∀ d page dict, ((stateTranslationNew d page dict).1).check_utf8 =
      isStringPage page) ∧
    (∀ trans decoder decoded pv additional,
      (extend_from_state trans decoder decoded pv additional).decoder.check_utf8 =
        false) ∧
    binaryDecoderDefault.check_utf8 = false := by
  refine ⟨fun d page dict => rfl, ?_, rfl⟩
  intro trans decoder decoded pv additional
  rfl

/-- C10: `finish` is total exactly for the four binary/string physical types: for
`Binary`/`LargeBinary` it returns `Ok` with a binary array, for `Utf8`/`LargeUtf8`
`Ok` with a string array, in every case built directly from the accumulator (any
offsets/bytes/validity, with no re-validation — the quantification over arbitrary
accumulators shows none is performed), and for any other physical type it panics
(`unreachable!`, modelled `none`) rather than returning an error. -/
theorem finish_physical_type_totality (dt : ArrowDataType) (values : Binary)
    (validity : List Bool) :
    (finish dt values validity =
        some (.ok (.binaryArray dt values.offsets values.values validity)) ↔
      dt.physical = .binary ∨ dt.physical = .largeBinary) ∧
    (finish dt values validity =
        some (.ok (.utf8Array dt values.offsets values.values validity)) ↔
      dt.physical = .utf8 ∨ dt.physical = .largeUtf8) ∧
    (finish dt values validity = none ↔
      ¬(dt.physical = .binary ∨ dt.physical = .largeBinary ∨
        dt.physical = .utf8 ∨ dt.physical = .largeUtf8)) := by
  obtain ⟨pt⟩ := dt
  cases pt <;> simp [finish]

/-- The early (`?`-propagated) error of the match phase is exactly the dictionary
variant's buffered stream error; no other arm returns early. -/
theorem extendMatch_early (trans : BinaryStateTranslation) (values : Binary)
    (validity : List Bool) (pv : Option (List Bool)) (additional : Nat) (v : Bool) :
    (extendMatch trans values validity pv additional v).2.2.2.2.2 = dictErr trans := by
  cases trans <;> cases pv <;> rfl

/-- C9: If `extend_from_state` returns the UTF-8 decode error, the accumulator has
already been mutated: the returned accumulator pair is exactly the match phase's
mutation (validation neither touches nor rolls it back), and the offset buffer has
strictly grown — the offsets and invalid bytes of the failing range were appended
before validation ran, so the extend is not atomic. (The hypothesis on `dictErr`
rules out a dictionary stream whose buffered error is spelled exactly like the
UTF-8 error, which cannot arise in the source.) -/
theorem extend_utf8_error_not_rolled_back (trans : BinaryStateTranslation)
    (decoder : BinaryDecoder) (values : Binary) (validity : List Bool)
    (pv : Option (List Bool)) (additional : Nat)
    (hdict : dictErr trans ≠ some (ParquetError.oos "invalid utf-8"))
    (h : (extend_from_state trans decoder (values, validity) pv additional).result =
      some (ParquetError.oos "invalid utf-8")) :
    (extend_from_state trans decoder (values, validity) pv additional).decoded =
      ((extendMatch trans values validity pv additional decoder.check_utf8).2.1,
       (extendMatch trans values validity pv additional
         decoder.check_utf8).2.2.1) ∧
    values.offsets.length <
      (extend_from_state trans decoder (values, validity) pv
        additional).decoded.1.offsets.length := by
  have hearly := extendMatch_early trans values validity pv additional
    decoder.check_utf8
  rcases hEM : extendMatch trans values validity pv additional decoder.check_utf8
    with ⟨trans', values', validity', pv', validate', early⟩
  rw [hEM] at hearly
  subst hearly
  simp only [extend_from_state, hEM]
  rcases hde : dictErr trans with _ | e
  · simp only [extend_from_state, hEM, hde] at h
    constructor
    · trivial
    · by_cases hv : validate' = true
      · rw [hv] at h
        simp only [if_true] at h
        by_cases hchk : try_check_utf8 (values'.offsets.drop values.offsets.length)
            values'.values = true
        · simp [hchk] at h
        · have hne : values'.offsets.drop values.offsets.length ≠ [] := by
            intro hnil
            rw [hnil] at hchk
            simp [try_check_utf8] at hchk
          exact List.length_lt_of_drop_ne_nil hne
      · simp only [Bool.not_eq_true] at hv
        rw [hv] at h
        simp at h
  · exfalso
    simp only [extend_from_state, hEM, hde] at h
    simp only [Option.some.injEq] at h
    exact hdict (by rw [hde, h])

/-- C4: the claim says the validated region covers exactly the bytes appended by the
call; evaluating the code at a single-row extend of the invalid byte `0xFF` with the
validate flag set shows the call returns `Ok` while having appended the invalid byte:
`try_check_utf8` receives only `offsets[len_before..]`, whose span excludes the first
appended row's bytes, so the appended `0xFF` is never validated. -/
theorem utf8_validation_window_gap :
    (extend_from_state (.Plain [[0xFF]]) ⟨true⟩ (⟨[0], []⟩, []) none 1).result =
      none ∧
    (extend_from_state (.Plain [[0xFF]]) ⟨true⟩ (⟨[0], []⟩, []) none
      1).decoded.1.values = [0xFF] ∧
    utf8Valid [0xFF] = false := by decide

/-- C5: the claim says that for a page whose declared logical type is String,
`extend_from_state` over bytes that are not valid UTF-8 returns a decode error;
evaluating the code on a String-typed plain page with the single invalid value
`0xFF` shows the call returns `Ok` and appends the invalid byte (the validation
window misses the first appended row), while — as the claim's second half correctly
says — the same bytes decoded for a non-String column also succeed. -/
theorem string_page_invalid_utf8_accepted :
    (let page : DataPage := ⟨some .string, .plain [[0xFF]]⟩
     let s := stateTranslationNew binaryDecoderDefault page none
     let o := extend_from_state s.2 s.1 (⟨[0], []⟩, []) none 1
     let page2 : DataPage := ⟨none, .plain [[0xFF]]⟩
     let s2 := stateTranslationNew binaryDecoderDefault page2 none
     let o2 := extend_from_state s2.2 s2.1 (⟨[0], []⟩, []) none 1
     isStringPage page = true ∧ o.result = none ∧
     o.decoded.1.values = [0xFF] ∧ utf8Valid [0xFF] = false ∧
     isStringPage page2 = false ∧ o2.result = none ∧
     o2.decoded.1.values = [0xFF]) := by decide

/-- Witness for C6 at a concrete plain cursor holding two values. -/
theorem extend_no_validity_frame_witness :
    2 ≤ len_when_not_nullable (.Plain [[0x41], [0x42]]) ∧
    (let o := extend_from_state (.Plain [[0x41], [0x42]]) ⟨false⟩
      ((⟨[0], []⟩ : Binary), ([] : List Bool)) none 2
     o.decoded.2 = [] ∧
     o.decoded.1.offsets.length = (⟨[0], []⟩ : Binary).offsets.length + 2 ∧
     o.pageValidity = none) :=
  ⟨by decide, extend_no_validity_frame _ _ _ _ _ (by decide)⟩

/-- Witness for the C2 amended theorem at a concrete delta-byte-array cursor. -/
theorem extend_utf8_validation_gate_witness :
    (extend_from_state (.DeltaBytes [[0x41]]) ⟨true⟩
        (((⟨[0], []⟩ : Binary)), ([] : List Bool)) none 1).result =
      (if try_check_utf8
          ((extend_from_state (.DeltaBytes [[0x41]]) ⟨true⟩ (⟨[0], []⟩, []) none
            1).decoded.1.offsets.drop (⟨[0], []⟩ : Binary).offsets.length)
          ((extend_from_state (.DeltaBytes [[0x41]]) ⟨true⟩ (⟨[0], []⟩, []) none
            1).decoded.1.values) then none
       else some (.oos "invalid utf-8")) :=
  extend_utf8_validation_gate.2 (.DeltaBytes [[0x41]]) ⟨[0], []⟩ [] none 1
    (fun _ _ h => BinaryStateTranslation.noConfusion h)

/-- Witness for C9 at a concrete plain cursor whose second value is invalid UTF-8:
the hypotheses hold and the offset buffer strictly grew. -/
theorem extend_utf8_error_not_rolled_back_witness :
    dictErr (.Plain [[0x41], [0xFF]]) ≠ some (ParquetError.oos "invalid utf-8") ∧
    (extend_from_state (.Plain [[0x41], [0xFF]]) ⟨true⟩ (⟨[0], []⟩, []) none
      2).result = some (ParquetError.oos "invalid utf-8") ∧
    ((extend_from_state (.Plain [[0x41], [0xFF]]) ⟨true⟩
        (((⟨[0], []⟩ : Binary)), ([] : List Bool)) none 2).decoded =
      ((extendMatch (.Plain [[0x41], [0xFF]]) ⟨[0], []⟩ [] none 2
        (BinaryDecoder.mk true).check_utf8).2.1,
       (extendMatch (.Plain [[0x41], [0xFF]]) ⟨[0], []⟩ [] none 2
         (BinaryDecoder.mk true).check_utf8).2.2.1) ∧
     (⟨[0], []⟩ : Binary).offsets.length <
       (extend_from_state (.Plain [[0x41], [0xFF]]) ⟨true⟩ (⟨[0], []⟩, []) none
         2).decoded.1.offsets.length) :=
  ⟨by decide, by decide,
    extend_utf8_error_not_rolled_back _ _ _ _ _ _ (by decide) (by decide)⟩

end PolarsBinary
